import Mathlib

/-!
Verification of the awsweeper specification against the code.

The command-line layer is embedded from `src/command/wrapped_main.go`
(function `WrappedMain`), including the semantics of Go's standard
`flag` package that it calls (`flag.NewFlagSet` with `ContinueOnError`,
`set.Parse`).  The resource-wiping engine (loader, matcher, orderer,
executor, reporter) is not part of the given sources; it is modelled
from the specification, with each such definition marked
`Modelled from the spec:` in its doc comment.
-/

namespace Awsweeper

/-! ## Command-line layer: Go `flag` parsing as used by `WrappedMain` -/

/-- State of the flag set built in `WrappedMain` (`wrapped_main.go` lines
25-33): eight flags with their Go default values, plus the set of flag
names that were actually assigned during parsing (Go's `FlagSet.actual`). -/
structure FlagState where
  version : Bool := false
  help : Bool := false
  dryRun : Bool := false
  force : Bool := false
  profile : String := ""
  region : String := ""
  maxRetries : Int := 25
  output : String := "string"
  assigned : List String := []
deriving Repr, DecidableEq

/-- Errors produced by `flag.FlagSet.Parse` under `ContinueOnError`. -/
inductive ParseError where
  | badSyntax (arg : String)
  | notDefined (name : String)
  | badValue (name value : String)
  | needsArgument (name : String)
  | helpRequested
deriving Repr, DecidableEq

/-- Classification of one command-line argument, following Go
`flag.FlagSet.parseOne`: a non-flag argument stops parsing, `--`
terminates it, `-name`, `--name`, `-name=value`, `--name=value`
carry a flag. -/
inductive ArgClass where
  | notFlag
  | terminator
  | bad
  | flagArg (name : String) (value : Option String)
deriving Repr, DecidableEq

/-- Split a character list at the first `=`, as Go's flag parsing splits
`name=value`. -/
def splitEqAux : List Char → List Char → List Char × Option (List Char)
  | [], acc => (acc.reverse, none)
  | c :: rest, acc =>
    if c = '=' then (acc.reverse, some rest) else splitEqAux rest (c :: acc)

/-- Classify one argument exactly as `flag.FlagSet.parseOne` does:
an argument of length < 2 or not starting with `-` is not a flag
(parsing stops just before it); `--` terminates parsing; after
stripping one or two minuses, an empty name or a name starting with
`-` or `=` is bad syntax; otherwise the name is split at the first `=`. -/
def classify (s : String) : ArgClass :=
  match s.data with
  | '-' :: '-' :: [] => ArgClass.terminator
  | '-' :: '-' :: c :: cs =>
    if c = '-' ∨ c = '=' then ArgClass.bad
    else
      let nv := splitEqAux (c :: cs) []
      ArgClass.flagArg (String.mk nv.1) (nv.2.map String.mk)
  | '-' :: c :: cs =>
    if c = '-' ∨ c = '=' then ArgClass.bad
    else
      let nv := splitEqAux (c :: cs) []
      ArgClass.flagArg (String.mk nv.1) (nv.2.map String.mk)
  | _ => ArgClass.notFlag

/-- Go `strconv.ParseBool`, used for `-flag=value` on boolean flags. -/
def goParseBool (s : String) : Option Bool :=
  if s = "1" ∨ s = "t" ∨ s = "T" ∨ s = "true" ∨ s = "TRUE" ∨ s = "True" then some true
  else if s = "0" ∨ s = "f" ∨ s = "F" ∨ s = "false" ∨ s = "FALSE" ∨ s = "False" then
    some false
  else none

/-- Integer value parsing for the `max-retries` flag (Go
`strconv.ParseInt`; modelled for decimal literals, the only form the
claims exercise). -/
def goParseInt (s : String) : Option Int :=
  s.toInt?

/-- The boolean flags registered in `WrappedMain`
(`version`, `help`, `dry-run`, `force`). -/
def boolFlags : List String := ["version", "help", "dry-run", "force"]

/-- The string flags registered in `WrappedMain`
(`profile`, `region`, `output`). -/
def stringFlags : List String := ["profile", "region", "output"]

/-- Assign a boolean flag by name, recording the assignment. -/
def setBoolFlag (st : FlagState) (name : String) (b : Bool) : FlagState :=
  if name = "version" then { st with version := b, assigned := st.assigned ++ [name] }
  else if name = "help" then { st with help := b, assigned := st.assigned ++ [name] }
  else if name = "dry-run" then { st with dryRun := b, assigned := st.assigned ++ [name] }
  else { st with force := b, assigned := st.assigned ++ [name] }

/-- Assign a string flag by name, recording the assignment. -/
def setStringFlag (st : FlagState) (name : String) (v : String) : FlagState :=
  if name = "profile" then { st with profile := v, assigned := st.assigned ++ [name] }
  else if name = "region" then { st with region := v, assigned := st.assigned ++ [name] }
  else { st with output := v, assigned := st.assigned ++ [name] }

/-- Assign the `max-retries` flag, recording the assignment. -/
def setIntFlag (st : FlagState) (n : Int) : FlagState :=
  { st with maxRetries := n, assigned := st.assigned ++ ["max-retries"] }

/-- Go `flag.FlagSet.Parse` over `WrappedMain`'s flag set: consume
leading flag arguments, stop at the first non-flag argument or after
`--`, and return the final flag state together with the remaining
arguments (`set.Args()`).  A boolean flag without `=value` is set to
true; a non-boolean flag without `=value` consumes the next argument
as its value.  An undefined `-h` prints usage and fails with
`ErrHelp`; any other undefined name is an error. -/
def parseArgs : FlagState → List String → Except ParseError (FlagState × List String)
  | st, [] => Except.ok (st, [])
  | st, s :: rest =>
    match classify s with
    | ArgClass.notFlag => Except.ok (st, s :: rest)
    | ArgClass.terminator => Except.ok (st, rest)
    | ArgClass.bad => Except.error (ParseError.badSyntax s)
    | ArgClass.flagArg name val =>
      if name ∈ boolFlags then
        match val with
        | none => parseArgs (setBoolFlag st name true) rest
        | some v =>
          match goParseBool v with
          | some b => parseArgs (setBoolFlag st name b) rest
          | none => Except.error (ParseError.badValue name v)
      else if name ∈ stringFlags then
        match val with
        | some v => parseArgs (setStringFlag st name v) rest
        | none =>
          match rest with
          | v :: rest2 => parseArgs (setStringFlag st name v) rest2
          | [] => Except.error (ParseError.needsArgument name)
      else if name = "max-retries" then
        match val with
        | some v =>
          match goParseInt v with
          | some n => parseArgs (setIntFlag st n) rest
          | none => Except.error (ParseError.badValue name v)
        | none =>
          match rest with
          | v :: rest2 =>
            match goParseInt v with
            | some n => parseArgs (setIntFlag st n) rest2
            | none => Except.error (ParseError.badValue name v)
          | [] => Except.error (ParseError.needsArgument name)
      else if name = "h" then Except.error ParseError.helpRequested
      else Except.error (ParseError.notDefined name)

instance {e a : Type} [DecidableEq e] [DecidableEq a] : DecidableEq (Except e a) :=
  fun x y =>
    match x, y with
    | Except.ok u, Except.ok v =>
      if h : u = v then Decidable.isTrue (by rw [h])
      else Decidable.isFalse (by intro hc; cases hc; exact h rfl)
    | Except.error u, Except.error v =>
      if h : u = v then Decidable.isTrue (by rw [h])
      else Decidable.isFalse (by intro hc; cases hc; exact h rfl)
    | Except.ok _, Except.error _ => Decidable.isFalse (by intro hc; cases hc)
    | Except.error _, Except.ok _ => Decidable.isFalse (by intro hc; cases hc)

/-- The run configuration `WrappedMain` hands to the engine: the `Wipe`
command's fields (`dryRun`, `forceDelete`, `outputType`), the
`max-retries` value given to the AWS provider, the session's
profile/region, and the remaining command-line arguments. -/
structure WipeConfig where
  dryRun : Bool
  forceDelete : Bool
  outputType : String
  maxRetries : Int
  profile : String
  region : String
  cmdArgs : List String
deriving Repr, DecidableEq

/-- Observable outcome of `WrappedMain` (`wrapped_main.go` lines 42-104):
parse failure returns 1; `--version` prints the version and returns 0;
`--help` prints help and returns 0; otherwise a session is created and
the `wipe` command runs with the parsed configuration. -/
inductive MainOutcome where
  | parseFailed (e : ParseError)
  | printedVersion (v : String)
  | printedHelp
  | ranWipe (cfg : WipeConfig)
deriving Repr, DecidableEq

/-- `WrappedMain` of `wrapped_main.go`: parse the flags, then check
`versionFlag` (line 49) before `helpFlag` (line 54), else build the
session and run `wipe`. -/
def WrappedMain (args : List String) : MainOutcome :=
  match parseArgs {} args with
  | Except.error e => MainOutcome.parseFailed e
  | Except.ok (st, rest) =>
    if st.version then MainOutcome.printedVersion "v0.4.1"
    else if st.help then MainOutcome.printedHelp
    else
      MainOutcome.ranWipe
        { dryRun := st.dryRun, forceDelete := st.force, outputType := st.output,
          maxRetries := st.maxRetries, profile := st.profile, region := st.region,
          cmdArgs := rest }

/-- Exit status of `WrappedMain` when it is decided by the shown code:
1 on parse error, 0 after printing version or help; after running the
wipe command the status comes from the engine (`none` here). -/
def exitCodeOf : MainOutcome → Option Int
  | MainOutcome.parseFailed _ => some 1
  | MainOutcome.printedVersion _ => some 0
  | MainOutcome.printedHelp => some 0
  | MainOutcome.ranWipe _ => none

/-! ## Engine data model (spec section 3) -/

/-- Modelled from the spec: `ResourceDescriptor` = type identifier,
opaque id/ARN, display name, tag mapping, optional creation timestamp
(spec section 3); the engine itself is not among the given sources. -/
structure ResourceDescriptor where
  rtype : String
  id : String
  name : String
  tags : List (String × String)
  created : Option Nat
deriving Repr, DecidableEq

/-- Modelled from the spec: the five predicate forms of section 3.
The regex engine behind `name-matches` is an external concern; it is
modelled as substring containment of the pattern in the name. -/
inductive Predicate where
  | tagEquals (key value : String)
  | nameMatches (pattern : String)
  | createdBefore (t : Nat)
  | createdAfter (t : Nat)
  | idIn (ids : List String)
deriving Repr, DecidableEq

/-- Modelled from the spec: one `TypeFilter` = resource type identifier
plus its predicate list. -/
structure TypeFilter where
  rtype : String
  preds : List Predicate
deriving Repr, DecidableEq

/-- Modelled from the spec: a `FilterSpec` is an ordered sequence of
`TypeFilter`. -/
abbrev FilterSpec := List TypeFilter

/-- Modelled from the spec: a `DependencyEdge` is the static fact
"`dependent` depends on `dependency`" (e.g. subnet depends on vpc),
so dependents are deleted first. -/
structure DependencyEdge where
  dependent : String
  dependency : String
deriving Repr, DecidableEq

/-- Modelled from the spec: deletion outcomes of a `DeletionResult`
(section 3). -/
inductive Outcome where
  | deleted
  | skippedDryRun
  | failed (reason : String)
  | notConfirmed
deriving Repr, DecidableEq

/-- Modelled from the spec: `DeletionResult` = resource descriptor,
outcome, attempt count. -/
structure DeletionResult where
  resource : ResourceDescriptor
  outcome : Outcome
  attempts : Nat
deriving Repr, DecidableEq

/-! ## Matcher (spec section 4.3) -/

/-- Character-list prefix test used by `containsChars`. -/
def startsWithChars : List Char → List Char → Bool
  | [], _ => true
  | _ :: _, [] => false
  | p :: ps, c :: cs => p = c && startsWithChars ps cs

/-- Substring containment over character lists, the model of the
external regex engine used by `name-matches`. -/
def containsChars : List Char → List Char → Bool
  | pat, [] => startsWithChars pat []
  | pat, c :: cs => startsWithChars pat (c :: cs) || containsChars pat cs

/-- Modelled from the spec: evaluate one predicate against one
descriptor.  A `created-before`/`created-after` predicate against a
descriptor lacking a timestamp evaluates to false rather than raising
an error (section 4.3). -/
def evalPredicate (p : Predicate) (r : ResourceDescriptor) : Bool :=
  match p with
  | Predicate.tagEquals k v => r.tags.any fun kv => kv.1 = k ∧ kv.2 = v
  | Predicate.nameMatches pat => containsChars pat.data r.name.data
  | Predicate.createdBefore t =>
    match r.created with
    | some c => c < t
    | none => false
  | Predicate.createdAfter t =>
    match r.created with
    | some c => t < c
    | none => false
  | Predicate.idIn ids => ids.contains r.id

/-- Modelled from the spec: `matches(descriptor, predicates)` (the name `matches` is a Lean keyword, hence `matchesAll`) — the
predicates of one `TypeFilter` combine with logical AND; an empty list
matches everything (section 3, 4.3). -/
def matchesAll (r : ResourceDescriptor) (ps : List Predicate) : Bool :=
  ps.all fun p => evalPredicate p r

/-- Modelled from the spec: the Matcher selects from a resource set the
descriptors satisfying every predicate. -/
def matchResources (ps : List Predicate) (rs : List ResourceDescriptor) :
    List ResourceDescriptor :=
  rs.filter fun r => matchesAll r ps

/-! ## Dependency Orderer (spec section 4.4) -/

/-- Modelled from the spec: a type `t` is ready for emission when no
type still remaining depends on it (dependents come first).  Only
edges whose dependent is among the remaining (present) types count:
the graph is built over the types present in the matched set. -/
def ready (edges : List DependencyEdge) (ts : List String) (t : String) : Bool :=
  !(edges.any fun e => e.dependency = t ∧ e.dependent ∈ ts)

/-- Modelled from the spec: topological sort of the matched types,
dependents before dependencies; a cycle (no ready type remains, or the
fuel runs out) yields `none`, the `OrderingError` of section 4.4. -/
def topoSort (edges : List DependencyEdge) : Nat → List String → Option (List String)
  | _, [] => some []
  | 0, _ :: _ => none
  | fuel + 1, t0 :: ts =>
    ((t0 :: ts).find? (ready edges (t0 :: ts))).bind fun t =>
      (topoSort edges fuel ((t0 :: ts).erase t)).map fun out => t :: out

/-- Modelled from the spec: look up the resources matched for one type
(empty when the type is absent from the matched mapping). -/
def lookupRes (matched : List (String × List ResourceDescriptor)) (t : String) :
    List ResourceDescriptor :=
  match matched.find? fun p => p.1 = t with
  | some p => p.2
  | none => []

/-- Modelled from the spec: `order(matched)` — topologically sort the
types present in the matched set, then emit each type's resources in
enumeration order (section 4.4). -/
def orderMatched (edges : List DependencyEdge)
    (matched : List (String × List ResourceDescriptor)) :
    Option (List ResourceDescriptor) :=
  match topoSort edges (matched.map Prod.fst).length (matched.map Prod.fst) with
  | none => none
  | some ts => some (ts.flatMap (lookupRes matched))

/-- The matched mapping is well formed when every descriptor is listed
under its own type identifier. -/
def WellFormedMatched (matched : List (String × List ResourceDescriptor)) : Prop :=
  ∀ p ∈ matched, ∀ r ∈ p.2, r.rtype = p.1

instance (matched : List (String × List ResourceDescriptor)) :
    Decidable (WellFormedMatched matched) := by
  unfold WellFormedMatched; infer_instance

/-! ## Executor (spec section 4.5) -/

/-- Modelled from the spec: the Executor's own retry loop uses a small
fixed bound of attempts before recording `failed` (section 4.5). -/
def maxAttempts : Nat := 3

/-- Modelled from the spec: delete one resource with per-resource retry.
`del r attempt` is the Catalog's `delete` call for attempt number
`attempt`; the second component of the result records every call made
to `Catalog.delete`. -/
def tryDelete (del : ResourceDescriptor → Nat → Bool) (r : ResourceDescriptor) :
    Nat → Nat → DeletionResult × List ResourceDescriptor
  | 0, attempt => (⟨r, Outcome.failed "retries exhausted", attempt - 1⟩, [])
  | fuel + 1, attempt =>
    if del r attempt then (⟨r, Outcome.deleted, attempt⟩, [r])
    else
      let next := tryDelete del r fuel (attempt + 1)
      (next.1, r :: next.2)

/-- Modelled from the spec: process the ordered sequence, isolating
failures — a `failed` outcome does not halt processing of subsequent
resources (section 4.5). -/
def runDeletions (del : ResourceDescriptor → Nat → Bool) :
    List ResourceDescriptor → List DeletionResult × List ResourceDescriptor
  | [] => ([], [])
  | r :: rs =>
    let first := tryDelete del r maxAttempts 1
    let rest := runDeletions del rs
    (first.1 :: rest.1, first.2 ++ rest.2)

/-- Modelled from the spec: the Executor.  Dry-run is checked before any
mutating call; the confirmation gate (when force-delete is false,
`confirm` is the operator's single up-front response) aborts the whole
run when declined; otherwise the ordered sequence is processed with
retry and failure isolation.  Returns the ordered result log and the
trace of every `Catalog.delete` call. -/
def execute (cfg : WipeConfig) (confirm : Bool) (del : ResourceDescriptor → Nat → Bool)
    (ordered : List ResourceDescriptor) :
    List DeletionResult × List ResourceDescriptor :=
  if cfg.dryRun then
    (ordered.map fun r => ⟨r, Outcome.skippedDryRun, 0⟩, [])
  else if !cfg.forceDelete && !confirm then
    (ordered.map fun r => ⟨r, Outcome.notConfirmed, 0⟩, [])
  else
    runDeletions del ordered

/-! ## FilterSpec Loader (spec section 4.1) -/

/-- Modelled from the spec: a parsed YAML/JSON document tree; the raw
text parse is external, so `load` receives `none` for an unparseable
document. -/
inductive RawValue where
  | str (s : String)
  | list (vs : List RawValue)
  | map (kvs : List (String × RawValue))

/-- Modelled from the spec: `ConfigError`, the failure taxonomy of
sections 4.1 and 7 for bad filter specifications. -/
inductive ConfigError where
  | unparseable
  | notAMap
  | unknownType (t : String)
  | badPredicate (name : String)
deriving Repr, DecidableEq

/-- Modelled from the spec: the resource-type identifiers registered in
the catalog (the spec's examples; the exact registry is an external
registration concern). -/
def knownTypes : List String := ["instance", "queue", "subnet", "vpc"]

/-- Modelled from the spec: validity check of the external regex
dialect, modelled as balanced parentheses. -/
def balancedAux : List Char → Nat → Bool
  | [], 0 => true
  | [], _ + 1 => false
  | c :: cs, d =>
    if c = '(' then balancedAux cs (d + 1)
    else if c = ')' then
      match d with
      | 0 => false
      | d + 1 => balancedAux cs d
    else balancedAux cs d

/-- Modelled from the spec: a regex pattern is accepted when its
parentheses balance. -/
def regexValid (pat : String) : Bool :=
  balancedAux pat.data 0

/-- Modelled from the spec: a timestamp literal is a decimal number. -/
def parseTimestamp (s : String) : Option Nat :=
  s.toNat?

/-- Modelled from the spec: extract the strings of a raw list, failing
on any non-string element. -/
def stringList : List RawValue → Option (List String)
  | [] => some []
  | RawValue.str s :: rest => (stringList rest).map fun ss => s :: ss
  | _ :: _ => none

/-- Modelled from the spec: parse one predicate entry, rejecting an
invalid shape (unknown predicate name, unparseable regex, malformed
timestamp, wrong value structure) with `ConfigError` (section 4.1). -/
def parsePredicateEntry (name : String) (v : RawValue) : Except ConfigError Predicate :=
  if name = "tag-equals" then
    match v with
    | RawValue.list [RawValue.str k, RawValue.str val] =>
      Except.ok (Predicate.tagEquals k val)
    | _ => Except.error (ConfigError.badPredicate name)
  else if name = "name-matches" then
    match v with
    | RawValue.str pat =>
      if regexValid pat then Except.ok (Predicate.nameMatches pat)
      else Except.error (ConfigError.badPredicate name)
    | _ => Except.error (ConfigError.badPredicate name)
  else if name = "created-before" then
    match v with
    | RawValue.str s =>
      match parseTimestamp s with
      | some t => Except.ok (Predicate.createdBefore t)
      | none => Except.error (ConfigError.badPredicate name)
    | _ => Except.error (ConfigError.badPredicate name)
  else if name = "created-after" then
    match v with
    | RawValue.str s =>
      match parseTimestamp s with
      | some t => Except.ok (Predicate.createdAfter t)
      | none => Except.error (ConfigError.badPredicate name)
    | _ => Except.error (ConfigError.badPredicate name)
  else if name = "id-in" then
    match v with
    | RawValue.list vs =>
      match stringList vs with
      | some ids => Except.ok (Predicate.idIn ids)
      | none => Except.error (ConfigError.badPredicate name)
    | _ => Except.error (ConfigError.badPredicate name)
  else Except.error (ConfigError.badPredicate name)

/-- Modelled from the spec: parse the predicate entries of one type's
filter body, propagating the first `ConfigError`. -/
def parsePreds : List (String × RawValue) → Except ConfigError (List Predicate)
  | [] => Except.ok []
  | (n, v) :: rest =>
    match parsePredicateEntry n v with
    | Except.error e => Except.error e
    | Except.ok p =>
      match parsePreds rest with
      | Except.error e => Except.error e
      | Except.ok ps => Except.ok (p :: ps)

/-- Modelled from the spec: parse one top-level entry.  An unknown
top-level key (a resource-type identifier not registered in the
catalog) is rejected, never silently ignored (section 4.1). -/
def parseTypeFilter (k : String) (v : RawValue) : Except ConfigError TypeFilter :=
  if k ∈ knownTypes then
    match v with
    | RawValue.map entries =>
      match parsePreds entries with
      | Except.error e => Except.error e
      | Except.ok ps => Except.ok ⟨k, ps⟩
    | _ => Except.error (ConfigError.badPredicate k)
  else Except.error (ConfigError.unknownType k)

/-- Modelled from the spec: parse every top-level entry in document
order. -/
def parseFilters : List (String × RawValue) → Except ConfigError FilterSpec
  | [] => Except.ok []
  | (k, v) :: rest =>
    match parseTypeFilter k v with
    | Except.error e => Except.error e
    | Except.ok tf =>
      match parseFilters rest with
      | Except.error e => Except.error e
      | Except.ok tfs => Except.ok (tf :: tfs)

/-- Modelled from the spec: `load` — fails with `ConfigError` on an
unparseable document (`none`), a document that is not a top-level
mapping, an unknown resource-type identifier or top-level key, or a
predicate of invalid shape (section 4.1). -/
def load : Option RawValue → Except ConfigError FilterSpec
  | none => Except.error ConfigError.unparseable
  | some (RawValue.map kvs) => parseFilters kvs
  | some _ => Except.error ConfigError.notAMap

/-! ## Reporter (spec section 4.6) -/

/-- Modelled from the spec: the three output formats selected by the
`output` flag. -/
inductive OutputFormat where
  | string
  | json
  | yaml
deriving Repr, DecidableEq

/-- Modelled from the spec: render one outcome as text. -/
def outcomeText : Outcome → String
  | Outcome.deleted => "deleted"
  | Outcome.skippedDryRun => "skipped-dry-run"
  | Outcome.failed reason => "failed: " ++ reason
  | Outcome.notConfirmed => "not-confirmed"

/-- Modelled from the spec: render one `DeletionResult` as one line of
text in the given format. -/
def entryLine : OutputFormat → DeletionResult → String
  | OutputFormat.string, res =>
    res.resource.rtype ++ " " ++ res.resource.id ++ " " ++ outcomeText res.outcome
  | OutputFormat.json, res =>
    "  \x7b \"id\": \"" ++ res.resource.id ++ "\", \"outcome\": \"" ++
      outcomeText res.outcome ++ "\" \x7d,"
  | OutputFormat.yaml, res =>
    "- id: " ++ res.resource.id ++ ", outcome: " ++ outcomeText res.outcome

/-- Modelled from the spec: `render(results, format)` — pure formatting
of the whole result log as lines of text, with format-specific
enclosing glue. -/
def render : OutputFormat → List DeletionResult → List String
  | OutputFormat.string, rs => rs.map (entryLine OutputFormat.string)
  | OutputFormat.json, rs => "[" :: rs.map (entryLine OutputFormat.json) ++ ["]"]
  | OutputFormat.yaml, rs => "# results" :: rs.map (entryLine OutputFormat.yaml)

/-- Recognize the per-result lines of a rendered report: everything
except the fixed glue lines of the format. -/
def isEntryLine : OutputFormat → String → Bool
  | OutputFormat.string, _ => true
  | OutputFormat.json, l => l.data.head? = some ' '
  | OutputFormat.yaml, l => l.data.head? = some '-'

/-- Whether a deletion outcome is `failed`. -/
def Outcome.isFailed : Outcome → Bool
  | Outcome.failed _ => true
  | _ => false

/-- Relation between a flag state and a later one: assignments only
grow, and a flag that was never assigned keeps its earlier value. -/
def PreservesDefaults (st st' : FlagState) : Prop :=
  (∀ x ∈ st.assigned, x ∈ st'.assigned) ∧
  ("dry-run" ∉ st'.assigned → st'.dryRun = st.dryRun) ∧
  ("force" ∉ st'.assigned → st'.force = st.force) ∧
  ("output" ∉ st'.assigned → st'.output = st.output) ∧
  ("max-retries" ∉ st'.assigned → st'.maxRetries = st.maxRetries)

/-! ## Theorems: Matcher -/

/-- C5: the Matcher selects exactly the resources satisfying all
predicates of the filter (logical AND, match-all when empty), and
appending an additional predicate never enlarges the selected set
(monotonic narrowing). -/
theorem matcher_and_semantics_monotone (ps : List Predicate)
    (rs : List ResourceDescriptor) :
    (∀ r, r ∈ matchResources ps rs ↔ r ∈ rs ∧ ∀ p ∈ ps, evalPredicate p r = true) ∧
    (∀ q r, r ∈ matchResources (ps ++ [q]) rs → r ∈ matchResources ps rs) := by
  constructor
  · intro r
    simp [matchResources, matchesAll, List.mem_filter, List.all_eq_true]
  · intro q r hr
    simp only [matchResources, matchesAll, List.mem_filter, List.all_eq_true,
      List.mem_append, List.mem_singleton] at hr ⊢
    exact ⟨hr.1, fun p hp => hr.2 p (Or.inl hp)⟩

/-- Witness for C5 at a concrete tagged resource. -/
theorem matcher_and_semantics_monotone_witness :
    (⟨"queue", "q-1", "jobs", [("env", "test")], none⟩ : ResourceDescriptor) ∈
      matchResources [Predicate.tagEquals "env" "test"]
        [⟨"queue", "q-1", "jobs", [("env", "test")], none⟩,
         ⟨"queue", "q-2", "prod-jobs", [("env", "prod")], none⟩] :=
  ((matcher_and_semantics_monotone [Predicate.tagEquals "env" "test"]
      [⟨"queue", "q-1", "jobs", [("env", "test")], none⟩,
       ⟨"queue", "q-2", "prod-jobs", [("env", "prod")], none⟩]).1
    ⟨"queue", "q-1", "jobs", [("env", "test")], none⟩).mpr (by decide)

/-- C6: a created-before or created-after predicate against a descriptor
lacking a creation timestamp evaluates to false (total, no error), and
the timestampless resource is simply excluded while the filtering of
the remaining resources is unaffected. -/
theorem missing_timestamp_excluded (r : ResourceDescriptor) (t : Nat)
    (h : r.created = none) :
    evalPredicate (Predicate.createdBefore t) r = false ∧
    evalPredicate (Predicate.createdAfter t) r = false ∧
    ∀ ps rs1 rs2,
      Predicate.createdBefore t ∈ ps ∨ Predicate.createdAfter t ∈ ps →
      matchResources ps (rs1 ++ r :: rs2) = matchResources ps (rs1 ++ rs2) := by
  have hb : evalPredicate (Predicate.createdBefore t) r = false := by
    simp [evalPredicate, h]
  have ha : evalPredicate (Predicate.createdAfter t) r = false := by
    simp [evalPredicate, h]
  refine ⟨hb, ha, ?_⟩
  intro ps rs1 rs2 hps
  have hm : matchesAll r ps = false := by
    rw [matchesAll, List.all_eq_false]
    rcases hps with hp | hp
    · exact ⟨_, hp, by simp [hb]⟩
    · exact ⟨_, hp, by simp [ha]⟩
  simp [matchResources, List.filter_append, List.filter_cons, hm]

/-- Witness for C6 at a concrete timestampless resource. -/
theorem missing_timestamp_excluded_witness :
    evalPredicate (Predicate.createdBefore 100)
      ⟨"queue", "q-3", "old", [], none⟩ = false :=
  (missing_timestamp_excluded ⟨"queue", "q-3", "old", [], none⟩ 100 rfl).1

/-! ## Theorems: Reporter -/

/-- Every rendered entry line of the JSON format starts with a space,
unlike the bracket glue lines. -/
theorem entryLine_json_head (res : DeletionResult) :
    (entryLine OutputFormat.json res).data.head? = some ' ' := by
  simp [entryLine, String.data_append]

/-- Every rendered entry line of the YAML format starts with a dash,
unlike the header line. -/
theorem entryLine_yaml_head (res : DeletionResult) :
    (entryLine OutputFormat.yaml res).data.head? = some '-' := by
  simp [entryLine, String.data_append]

/-- C8: for every format, `render` is a total function on well-formed
result sequences, and the entry lines recoverable from its output are
exactly one line per `DeletionResult`, in order, including failed and
skipped outcomes. -/
theorem render_contains_each_result_once (fmt : OutputFormat)
    (rs : List DeletionResult) :
    (render fmt rs).filter (isEntryLine fmt) = rs.map (entryLine fmt) := by
  cases fmt with
  | string =>
    simp [render, isEntryLine, List.filter_eq_self]
  | json =>
    have hentry : ∀ res : DeletionResult,
        isEntryLine OutputFormat.json (entryLine OutputFormat.json res) = true := by
      intro res
      simp [isEntryLine, entryLine_json_head]
    simp only [render, List.filter_cons, List.filter_append]
    rw [List.filter_map]
    simp [isEntryLine, List.filter_eq_self, Function.comp, hentry]
    have hid : List.filter
        (isEntryLine OutputFormat.json ∘ entryLine OutputFormat.json) rs = rs :=
      List.filter_eq_self.mpr fun a _ => hentry a
    rw [hid]
  | yaml =>
    have hentry : ∀ res : DeletionResult,
        isEntryLine OutputFormat.yaml (entryLine OutputFormat.yaml res) = true := by
      intro res
      simp [isEntryLine, entryLine_yaml_head]
    simp only [render, List.filter_cons]
    rw [List.filter_map]
    simp [isEntryLine, List.filter_eq_self, Function.comp, hentry]
    have hid : List.filter
        (isEntryLine OutputFormat.yaml ∘ entryLine OutputFormat.yaml) rs = rs :=
      List.filter_eq_self.mpr fun a _ => hentry a
    rw [hid]

/-! ## Theorems: Executor -/

/-- C1: with dry-run enabled the Executor makes zero calls to
`Catalog.delete`, regardless of the force-delete flag and of the
confirmation response, and every matched resource is reported with
outcome `skipped-dry-run`. -/
theorem dryRun_no_catalog_delete (cfg : WipeConfig) (confirm : Bool)
    (del : ResourceDescriptor → Nat → Bool) (ordered : List ResourceDescriptor)
    (h : cfg.dryRun = true) :
    (execute cfg confirm del ordered).2 = [] ∧
    (execute cfg confirm del ordered).1.map DeletionResult.resource = ordered ∧
    ∀ res ∈ (execute cfg confirm del ordered).1,
      res.outcome = Outcome.skippedDryRun := by
  refine ⟨by simp [execute, h], by simp [execute, h, Function.comp_def], ?_⟩
  intro res hres
  simp only [execute, h, if_true] at hres
  obtain ⟨r, _, rfl⟩ := List.mem_map.mp hres
  rfl

/-- Witness for C1: a dry run over two resources with force-delete
enabled and an always-succeeding delete function. -/
theorem dryRun_no_catalog_delete_witness :
    (execute ⟨true, true, "string", 25, "", "", []⟩ true (fun _ _ => true)
        [⟨"vpc", "v-1", "main", [], some 10⟩]).2 = [] :=
  (dryRun_no_catalog_delete ⟨true, true, "string", 25, "", "", []⟩ true
    (fun _ _ => true) [⟨"vpc", "v-1", "main", [], some 10⟩] rfl).1

/-- C3: when force-delete is false and the operator declines the
confirmation prompt (shown only on a non-dry run), zero calls to
`Catalog.delete` occur, every matched resource is reported with
outcome `not-confirmed`, and no result has outcome `deleted`. -/
theorem declined_confirmation_no_deletions (cfg : WipeConfig)
    (del : ResourceDescriptor → Nat → Bool) (ordered : List ResourceDescriptor)
    (hdr : cfg.dryRun = false) (hfd : cfg.forceDelete = false) :
    (execute cfg false del ordered).2 = [] ∧
    (execute cfg false del ordered).1.map DeletionResult.resource = ordered ∧
    (∀ res ∈ (execute cfg false del ordered).1,
      res.outcome = Outcome.notConfirmed) ∧
    ∀ res ∈ (execute cfg false del ordered).1, res.outcome ≠ Outcome.deleted := by
  have hout : ∀ res ∈ (execute cfg false del ordered).1,
      res.outcome = Outcome.notConfirmed := by
    intro res hres
    simp only [execute, hdr, hfd, if_false, Bool.not_false, Bool.and_self,
      if_true] at hres
    obtain ⟨r, _, rfl⟩ := List.mem_map.mp hres
    rfl
  refine ⟨by simp [execute, hdr, hfd],
    by simp [execute, hdr, hfd, Function.comp_def], hout, ?_⟩
  intro res hres
  rw [hout res hres]
  exact fun hcontra => Outcome.noConfusion hcontra

/-- Witness for C3: a declined confirmation over one resource. -/
theorem declined_confirmation_no_deletions_witness :
    (execute ⟨false, false, "string", 25, "", "", []⟩ false (fun _ _ => true)
        [⟨"vpc", "v-1", "main", [], some 10⟩]).2 = [] :=
  (declined_confirmation_no_deletions ⟨false, false, "string", 25, "", "", []⟩
    (fun _ _ => true) [⟨"vpc", "v-1", "main", [], some 10⟩] rfl rfl).1

/-- A resource whose delete call fails on every attempt yields a
`failed` result naming it, with one delete call per attempt. -/
theorem tryDelete_always_fails (del : ResourceDescriptor → Nat → Bool)
    (r : ResourceDescriptor) (hfail : ∀ n, del r n = false) :
    ∀ fuel attempt,
      (tryDelete del r fuel attempt).1.resource = r ∧
      (tryDelete del r fuel attempt).1.outcome = Outcome.failed "retries exhausted" := by
  intro fuel
  induction fuel with
  | zero => intro attempt; exact ⟨rfl, rfl⟩
  | succ n ih =>
    intro attempt
    simp only [tryDelete, hfail attempt, if_false]
    exact ih (attempt + 1)

/-- A resource whose delete call succeeds at the first attempt yields a
`deleted` result with attempt count 1. -/
theorem tryDelete_first_succeeds (del : ResourceDescriptor → Nat → Bool)
    (r : ResourceDescriptor) (attempt : Nat) (fuel : Nat)
    (hok : del r attempt = true) :
    tryDelete del r (fuel + 1) attempt = (⟨r, Outcome.deleted, attempt⟩, [r]) := by
  simp [tryDelete, hok]

/-- Processing the ordered list with one always-failing resource:
results stay aligned with the input, the number of `failed` results
equals the number of occurrences of the failing resource, and every
other resource is deleted at its first attempt. -/
theorem runDeletions_isolates (del : ResourceDescriptor → Nat → Bool)
    (bad : ResourceDescriptor) (hbad : ∀ n, del bad n = false) :
    ∀ ordered : List ResourceDescriptor,
      (∀ r ∈ ordered, r ≠ bad → ∀ n, del r n = true) →
      (runDeletions del ordered).1.map DeletionResult.resource = ordered ∧
      (runDeletions del ordered).1.countP (fun res => res.outcome.isFailed) =
        ordered.count bad ∧
      ∀ res ∈ (runDeletions del ordered).1, res.resource ≠ bad →
        res.outcome = Outcome.deleted ∧ res.attempts = 1 := by
  intro ordered
  induction ordered with
  | nil => intro _; exact ⟨rfl, rfl, fun res hres => absurd hres (by simp [runDeletions])⟩
  | cons r rs ih =>
    intro hothers
    have hrest := ih fun x hx => hothers x (List.mem_cons_of_mem r hx)
    by_cases hr : r = bad
    · subst hr
      have hfail := tryDelete_always_fails del r hbad maxAttempts 1
      constructor
      · simp only [runDeletions, List.map_cons, hfail.1, hrest.1]
      constructor
      · have hpb : Outcome.isFailed (tryDelete del r maxAttempts 1).1.outcome = true := by
          rw [hfail.2]
          rfl
        simp only [runDeletions, List.countP_cons, hpb, List.count_cons]
        rw [hrest.2.1]
        simp
      · intro res hres hne
        simp only [runDeletions, List.mem_cons] at hres
        rcases hres with rfl | hres
        · exact absurd hfail.1 hne
        · exact hrest.2.2 res hres hne
    · have hok : del r 1 = true := hothers r (List.mem_cons_self r rs) hr 1
      have hdel := tryDelete_first_succeeds del r 1 (maxAttempts - 1) hok
      have hdel' : tryDelete del r maxAttempts 1 = (⟨r, Outcome.deleted, 1⟩, [r]) := hdel
      constructor
      · simp only [runDeletions, List.map_cons, hdel', hrest.1]
      constructor
      · simp only [runDeletions, hdel', List.countP_cons, List.count_cons]
        rw [hrest.2.1]
        simp [Outcome.isFailed, hr, Ne.symm hr]
      · intro res hres hne
        simp only [runDeletions, hdel', List.mem_cons] at hres
        rcases hres with rfl | hres
        · exact ⟨rfl, rfl⟩
        · exact hrest.2.2 res hres hne

/-- C4: if exactly one matched resource's deletion fails on every
attempt while every other resource's deletion succeeds, the Executor
still processes and deletes all the other resources, and the final
report contains exactly one `failed` entry. -/
theorem single_failure_isolated (cfg : WipeConfig) (confirm : Bool)
    (del : ResourceDescriptor → Nat → Bool) (ordered : List ResourceDescriptor)
    (bad : ResourceDescriptor)
    (hdr : cfg.dryRun = false) (hgo : cfg.forceDelete = true ∨ confirm = true)
    (hcount : ordered.count bad = 1)
    (hbad : ∀ n, del bad n = false)
    (hothers : ∀ r ∈ ordered, r ≠ bad → ∀ n, del r n = true) :
    (execute cfg confirm del ordered).1.map DeletionResult.resource = ordered ∧
    (execute cfg confirm del ordered).1.countP
      (fun res => res.outcome.isFailed) = 1 ∧
    ∀ res ∈ (execute cfg confirm del ordered).1, res.resource ≠ bad →
      res.outcome = Outcome.deleted := by
  have hexec : execute cfg confirm del ordered = runDeletions del ordered := by
    rcases hgo with hfd | hc
    · simp [execute, hdr, hfd]
    · simp [execute, hdr, hc]
  have hrun := runDeletions_isolates del bad hbad ordered hothers
  rw [hexec]
  exact ⟨hrun.1, hcount ▸ hrun.2.1, fun res hres hne => (hrun.2.2 res hres hne).1⟩

/-- Witness for C4: three resources, the middle one failing on every
attempt, the others succeeding; force-delete enabled. -/
theorem single_failure_isolated_witness :
    (execute ⟨false, true, "string", 25, "", "", []⟩ false
        (fun r _ => decide ¬r.id = "s-1")
        [⟨"vpc", "v-1", "main", [], some 10⟩, ⟨"subnet", "s-1", "a", [], some 11⟩,
         ⟨"subnet", "s-2", "b", [], none⟩]).1.countP
      (fun res => res.outcome.isFailed) = 1 :=
  (single_failure_isolated ⟨false, true, "string", 25, "", "", []⟩ false
    (fun r _ => decide ¬r.id = "s-1")
    [⟨"vpc", "v-1", "main", [], some 10⟩, ⟨"subnet", "s-1", "a", [], some 11⟩,
     ⟨"subnet", "s-2", "b", [], none⟩]
    ⟨"subnet", "s-1", "a", [], some 11⟩ rfl (Or.inl rfl) (by decide)
    (by intro n; rfl)
    (by
      intro r hr hne n
      simp only [decide_eq_true_eq]
      intro hid
      apply hne
      fin_cases hr <;> simp_all)).2.1

/-! ## Theorems: command-line layer -/

theorem preserves_refl (st : FlagState) : PreservesDefaults st st :=
  ⟨fun _ h => h, fun _ => rfl, fun _ => rfl, fun _ => rfl, fun _ => rfl⟩

theorem preserves_trans {a b c : FlagState} (h1 : PreservesDefaults a b)
    (h2 : PreservesDefaults b c) : PreservesDefaults a c := by
  obtain ⟨m1, d1, f1, o1, r1⟩ := h1
  obtain ⟨m2, d2, f2, o2, r2⟩ := h2
  refine ⟨fun x hx => m2 x (m1 x hx), ?_, ?_, ?_, ?_⟩ <;> intro hn
  · rw [d2 hn, d1 fun hc => hn (m2 _ hc)]
  · rw [f2 hn, f1 fun hc => hn (m2 _ hc)]
  · rw [o2 hn, o1 fun hc => hn (m2 _ hc)]
  · rw [r2 hn, r1 fun hc => hn (m2 _ hc)]

theorem setBoolFlag_assigned (st : FlagState) (name : String) (b : Bool) :
    (setBoolFlag st name b).assigned = st.assigned ++ [name] := by
  unfold setBoolFlag
  split_ifs <;> rfl

theorem setBoolFlag_preserves (st : FlagState) (name : String) (b : Bool)
    (hmem : name ∈ boolFlags) :
    PreservesDefaults st (setBoolFlag st name b) := by
  refine ⟨?_, ?_, ?_, ?_, ?_⟩
  · intro x hx
    rw [setBoolFlag_assigned]
    exact List.mem_append_left _ hx
  · intro hn
    rw [setBoolFlag_assigned] at hn
    have hne : name ≠ "dry-run" := fun hname =>
      hn (hname ▸ List.mem_append_right _ (List.mem_singleton.mpr rfl))
    unfold setBoolFlag
    split_ifs <;> rfl
  · intro hn
    rw [setBoolFlag_assigned] at hn
    have hne : name ≠ "force" := fun hname =>
      hn (hname ▸ List.mem_append_right _ (List.mem_singleton.mpr rfl))
    unfold setBoolFlag
    split_ifs with h1 h2 h3
    · rfl
    · rfl
    · rfl
    · exfalso
      simp only [boolFlags, List.mem_cons, List.not_mem_nil, or_false] at hmem
      rcases hmem with rfl | rfl | rfl | rfl
      · exact h1 rfl
      · exact h2 rfl
      · exact h3 rfl
      · exact hne rfl
  · intro hn
    unfold setBoolFlag
    split_ifs <;> rfl
  · intro hn
    unfold setBoolFlag
    split_ifs <;> rfl

theorem setStringFlag_assigned (st : FlagState) (name v : String) :
    (setStringFlag st name v).assigned = st.assigned ++ [name] := by
  unfold setStringFlag
  split_ifs <;> rfl

theorem setStringFlag_preserves (st : FlagState) (name v : String)
    (hmem : name ∈ stringFlags) :
    PreservesDefaults st (setStringFlag st name v) := by
  refine ⟨?_, ?_, ?_, ?_, ?_⟩
  · intro x hx
    rw [setStringFlag_assigned]
    exact List.mem_append_left _ hx
  · intro hn
    unfold setStringFlag
    split_ifs <;> rfl
  · intro hn
    unfold setStringFlag
    split_ifs <;> rfl
  · intro hn
    rw [setStringFlag_assigned] at hn
    have hne : name ≠ "output" := fun hname =>
      hn (hname ▸ List.mem_append_right _ (List.mem_singleton.mpr rfl))
    unfold setStringFlag
    split_ifs with h1 h2
    · rfl
    · rfl
    · exfalso
      simp only [stringFlags, List.mem_cons, List.not_mem_nil, or_false] at hmem
      rcases hmem with rfl | rfl | rfl
      · exact h1 rfl
      · exact h2 rfl
      · exact hne rfl
  · intro hn
    unfold setStringFlag
    split_ifs <;> rfl

theorem setIntFlag_preserves (st : FlagState) (n : Int) :
    PreservesDefaults st (setIntFlag st n) := by
  refine ⟨?_, fun _ => rfl, fun _ => rfl, fun _ => rfl, ?_⟩
  · intro x hx
    exact List.mem_append_left _ hx
  · intro hn
    exact absurd (List.mem_append_right _ (List.mem_singleton.mpr rfl)) hn

/-- Parsing only appends flag assignments: every flag not assigned
during the parse keeps the value it started with. -/
theorem parseArgs_preserves (st0 : FlagState) (args0 : List String) :
    ∀ st' rest, parseArgs st0 args0 = Except.ok (st', rest) →
      PreservesDefaults st0 st' := by
  induction st0, args0 using parseArgs.induct with
  | case1 st =>
    intro st' rest' h
    simp only [parseArgs, Except.ok.injEq, Prod.mk.injEq] at h
    obtain ⟨h1, -⟩ := h
    exact h1 ▸ preserves_refl st
  | case2 st s rest hc =>
    intro st' rest' h
    simp only [parseArgs, hc, Except.ok.injEq, Prod.mk.injEq] at h
    obtain ⟨h1, -⟩ := h
    exact h1 ▸ preserves_refl st
  | case3 st s rest hc =>
    intro st' rest' h
    simp only [parseArgs, hc, Except.ok.injEq, Prod.mk.injEq] at h
    obtain ⟨h1, -⟩ := h
    exact h1 ▸ preserves_refl st
  | case4 st s rest hc =>
    intro st' rest' h
    simp [parseArgs, hc] at h
  | case5 st s rest a hmem hc ih =>
    intro st' rest' h
    simp only [parseArgs, hc] at h
    rw [if_pos hmem] at h
    exact preserves_trans (setBoolFlag_preserves st a true hmem) (ih _ _ h)
  | case6 st s rest a hmem v b hgb hc ih =>
    intro st' rest' h
    simp only [parseArgs, hc, hgb] at h
    rw [if_pos hmem] at h
    exact preserves_trans (setBoolFlag_preserves st a b hmem) (ih _ _ h)
  | case7 st s rest a hmem v hgb hc =>
    intro st' rest' h
    simp only [parseArgs, hc, hgb] at h
    rw [if_pos hmem] at h
    cases h
  | case8 st s rest a hnb hms v hc ih =>
    intro st' rest' h
    simp only [parseArgs, hc] at h
    rw [if_neg hnb, if_pos hms] at h
    exact preserves_trans (setStringFlag_preserves st a v hms) (ih _ _ h)
  | case9 st s a hnb hms v rest2 hc ih =>
    intro st' rest' h
    simp only [parseArgs, hc] at h
    rw [if_neg hnb, if_pos hms] at h
    exact preserves_trans (setStringFlag_preserves st a v hms) (ih _ _ h)
  | case10 st s a hnb hms hc =>
    intro st' rest' h
    simp only [parseArgs, hc] at h
    rw [if_neg hnb, if_pos hms] at h
    cases h
  | case11 st s rest v n hgi hnb hns hc ih =>
    intro st' rest' h
    simp only [parseArgs, hc, hgi] at h
    rw [if_pos trivial] at h
    exact preserves_trans (setIntFlag_preserves st n) (ih _ _ h)
  | case12 st s rest v hgi hnb hns hc =>
    intro st' rest' h
    simp only [parseArgs, hc, hgi] at h
    rw [if_pos trivial] at h
    cases h
  | case13 st s v rest2 n hgi hnb hns hc ih =>
    intro st' rest' h
    simp only [parseArgs, hc, hgi] at h
    rw [if_pos trivial] at h
    exact preserves_trans (setIntFlag_preserves st n) (ih _ _ h)
  | case14 st s v rest2 hgi hnb hns hc =>
    intro st' rest' h
    simp only [parseArgs, hc, hgi] at h
    rw [if_pos trivial] at h
    cases h
  | case15 st s hnb hns hc =>
    intro st' rest' h
    simp only [parseArgs, hc] at h
    rw [if_pos trivial] at h
    cases h
  | case16 st s rest aopt hc hnb hns hnm =>
    intro st' rest' h
    simp only [parseArgs, hc] at h
    rw [if_neg hnm, if_pos trivial] at h
    cases h
  | case17 st s rest a aopt hc hnb hns hnm hnh =>
    intro st' rest' h
    simp only [parseArgs, hc] at h
    rw [if_neg hnb, if_neg hns, if_neg hnm, if_neg hnh] at h
    cases h

/-- C9 counterexample: the argument vector ["config.yaml", "--version"]
contains "--version" and parses successfully — Go flag parsing stops
just before the first non-flag argument — yet `WrappedMain` does not
print the version and return 0: it creates a session and runs the wipe
command with both strings as trailing arguments. -/
theorem version_after_positional_runs_wipe :
    "--version" ∈ ["config.yaml", "--version"] ∧
    (parseArgs {} ["config.yaml", "--version"]).isOk = true ∧
    WrappedMain ["config.yaml", "--version"] =
      MainOutcome.ranWipe
        { dryRun := false, forceDelete := false, outputType := "string",
          maxRetries := 25, profile := "", region := "",
          cmdArgs := ["config.yaml", "--version"] } :=
  ⟨by decide, by decide, by decide⟩

/-- Reduction of `WrappedMain` under a successful parse. -/
theorem WrappedMain_eq_of_parse (args : List String) (st : FlagState)
    (rest : List String) (hp : parseArgs {} args = Except.ok (st, rest)) :
    WrappedMain args =
      if st.version then MainOutcome.printedVersion "v0.4.1"
      else if st.help then MainOutcome.printedHelp
      else
        MainOutcome.ranWipe
          { dryRun := st.dryRun, forceDelete := st.force, outputType := st.output,
            maxRetries := st.maxRetries, profile := st.profile,
            region := st.region, cmdArgs := rest } := by
  unfold WrappedMain
  rw [hp]

/-- C9 (amended): for every argument vector whose successful parse sets
the version flag — that is, `--version` appears among the flags before
the first positional argument — `WrappedMain` prints the version string
and returns 0 without creating a cloud session or running the wipe
command; this holds even when `--help` is also set, the version check
preceding the help check. -/
theorem version_flag_short_circuits (args : List String) (st : FlagState)
    (rest : List String) (hp : parseArgs {} args = Except.ok (st, rest))
    (hv : st.version = true) :
    WrappedMain args = MainOutcome.printedVersion "v0.4.1" ∧
    exitCodeOf (WrappedMain args) = some 0 := by
  have hmain : WrappedMain args = MainOutcome.printedVersion "v0.4.1" := by
    rw [WrappedMain_eq_of_parse args st rest hp, if_pos hv]
  exact ⟨hmain, by rw [hmain]; rfl⟩

/-- Witness for the amended C9: `--version` together with `--help`. -/
theorem version_flag_short_circuits_witness :
    WrappedMain ["--version", "--help"] = MainOutcome.printedVersion "v0.4.1" ∧
    exitCodeOf (WrappedMain ["--version", "--help"]) = some 0 :=
  version_flag_short_circuits ["--version", "--help"]
    { version := true, help := true, assigned := ["version", "help"] } []
    (by decide) rfl

/-- C10: whenever the corresponding flag was not assigned during a
successful parse, the run configuration handed to the engine carries
the defaults: max-retries 25, output format "string", dry-run false,
force-delete false. -/
theorem default_run_configuration (args : List String) (st : FlagState)
    (rest : List String) (cfg : WipeConfig)
    (hp : parseArgs {} args = Except.ok (st, rest))
    (hw : WrappedMain args = MainOutcome.ranWipe cfg) :
    ("max-retries" ∉ st.assigned → cfg.maxRetries = 25) ∧
    ("output" ∉ st.assigned → cfg.outputType = "string") ∧
    ("dry-run" ∉ st.assigned → cfg.dryRun = false) ∧
    ("force" ∉ st.assigned → cfg.forceDelete = false) := by
  rw [WrappedMain_eq_of_parse args st rest hp] at hw
  by_cases hv : st.version = true
  · rw [if_pos hv] at hw
    cases hw
  · rw [if_neg hv] at hw
    by_cases hh : st.help = true
    · rw [if_pos hh] at hw
      cases hw
    · rw [if_neg hh] at hw
      injection hw with hw'
      obtain ⟨-, hd, hf, ho, hr⟩ := parseArgs_preserves {} args st rest hp
      subst hw'
      exact ⟨fun hn => hr hn, fun hn => ho hn, fun hn => hd hn, fun hn => hf hn⟩

/-- Witness for C10: an invocation assigning only the profile flag. -/
theorem default_run_configuration_witness :
    ({ dryRun := false, forceDelete := false, outputType := "string",
       maxRetries := 25, profile := "x", region := "", cmdArgs := [] } :
        WipeConfig).maxRetries = 25 :=
  (default_run_configuration ["--profile", "x"]
      { profile := "x", assigned := ["profile"] } []
      { dryRun := false, forceDelete := false, outputType := "string",
        maxRetries := 25, profile := "x", region := "", cmdArgs := [] }
      (by decide) (by decide)).1 (by decide)

/-! ## Theorems: Dependency Orderer -/

/-- Reading of a successful readiness check: no edge whose dependent is
still present has this type as its dependency. -/
theorem ready_spec (edges : List DependencyEdge) (ts : List String) (t : String)
    (h : ready edges ts t = true) :
    ∀ e ∈ edges, ¬(e.dependency = t ∧ e.dependent ∈ ts) := by
  intro e he hcontra
  simp only [ready, Bool.not_eq_true', List.any_eq_false, decide_eq_true_eq] at h
  exact h e he hcontra

/-- The topological sort emits only types it was given. -/
theorem topoSort_subset (edges : List DependencyEdge) :
    ∀ fuel ts out, topoSort edges fuel ts = some out → ∀ a ∈ out, a ∈ ts := by
  intro fuel
  induction fuel with
  | zero =>
    intro ts out h a ha
    cases ts with
    | nil =>
      simp only [topoSort, Option.some.injEq] at h
      subst h
      cases ha
    | cons t0 ts' => simp [topoSort] at h
  | succ n ih =>
    intro ts out h a ha
    cases ts with
    | nil =>
      simp only [topoSort, Option.some.injEq] at h
      subst h
      cases ha
    | cons t0 ts' =>
      simp only [topoSort, Option.bind_eq_some, Option.map_eq_some'] at h
      obtain ⟨t, hfind, out', hrec, hout⟩ := h
      subst hout
      rcases List.mem_cons.mp ha with rfl | ha'
      · exact List.mem_of_find?_eq_some hfind
      · exact List.mem_of_mem_erase (ih _ _ hrec a ha')

/-- For any registered edge, the topological sort never places the
dependency type before the dependent type. -/
theorem topoSort_pairwise (edges : List DependencyEdge) (e : DependencyEdge)
    (he : e ∈ edges) :
    ∀ fuel ts out, topoSort edges fuel ts = some out →
      out.Pairwise fun a b => ¬(a = e.dependency ∧ b = e.dependent) := by
  intro fuel
  induction fuel with
  | zero =>
    intro ts out h
    cases ts with
    | nil =>
      simp only [topoSort, Option.some.injEq] at h
      subst h
      exact List.Pairwise.nil
    | cons t0 ts' => simp [topoSort] at h
  | succ n ih =>
    intro ts out h
    cases ts with
    | nil =>
      simp only [topoSort, Option.some.injEq] at h
      subst h
      exact List.Pairwise.nil
    | cons t0 ts' =>
      simp only [topoSort, Option.bind_eq_some, Option.map_eq_some'] at h
      obtain ⟨t, hfind, out', hrec, hout⟩ := h
      subst hout
      refine List.Pairwise.cons ?_ (ih _ _ hrec)
      intro b hb hab
      have hready := List.find?_some hfind
      have hbts : b ∈ t0 :: ts' :=
        List.mem_of_mem_erase (topoSort_subset edges n _ _ hrec b hb)
      exact ready_spec edges (t0 :: ts') t hready e he ⟨hab.1 ▸ rfl, hab.2 ▸ hbts⟩

/-- A self-loop edge keeps its type out of any successful sort: were the
type present, it would never become ready and the sort would fail. -/
theorem topoSort_no_self (edges : List DependencyEdge) (e : DependencyEdge)
    (he : e ∈ edges) (hself : e.dependent = e.dependency) :
    ∀ fuel ts out, topoSort edges fuel ts = some out → e.dependency ∉ out := by
  intro fuel
  induction fuel with
  | zero =>
    intro ts out h
    cases ts with
    | nil =>
      simp only [topoSort, Option.some.injEq] at h
      subst h
      simp
    | cons t0 ts' => simp [topoSort] at h
  | succ n ih =>
    intro ts out h
    cases ts with
    | nil =>
      simp only [topoSort, Option.some.injEq] at h
      subst h
      simp
    | cons t0 ts' =>
      simp only [topoSort, Option.bind_eq_some, Option.map_eq_some'] at h
      obtain ⟨t, hfind, out', hrec, hout⟩ := h
      subst hout
      intro hmem
      rcases List.mem_cons.mp hmem with heq | hmem'
      · have hready := List.find?_some hfind
        have htmem := List.mem_of_find?_eq_some hfind
        exact ready_spec edges (t0 :: ts') t hready e he
          ⟨heq, by rw [hself, heq]; exact htmem⟩
      · exact ih _ _ hrec hmem'

/-- A resource found under a type key comes from that key's entry. -/
theorem lookupRes_mem (matched : List (String × List ResourceDescriptor))
    (t : String) (r : ResourceDescriptor) (hr : r ∈ lookupRes matched t) :
    ∃ p ∈ matched, p.1 = t ∧ r ∈ p.2 := by
  unfold lookupRes at hr
  split at hr
  next p hfind =>
    have hp := List.find?_some hfind
    simp only [decide_eq_true_eq] at hp
    exact ⟨p, List.mem_of_find?_eq_some hfind, hp, hr⟩
  next => cases hr

/-- In a well-formed matched mapping, looked-up resources carry the key
as their type. -/
theorem lookupRes_rtype (matched : List (String × List ResourceDescriptor))
    (hwf : WellFormedMatched matched) (t : String) (r : ResourceDescriptor)
    (hr : r ∈ lookupRes matched t) : r.rtype = t := by
  obtain ⟨p, hp, hpt, hrp⟩ := lookupRes_mem matched t r hr
  rw [hwf p hp r hrp, hpt]

/-- Unfolding of a successful `orderMatched` run. -/
theorem orderMatched_eq (edges : List DependencyEdge)
    (matched : List (String × List ResourceDescriptor))
    (out : List ResourceDescriptor)
    (h : orderMatched edges matched = some out) :
    ∃ ts, topoSort edges (matched.map Prod.fst).length (matched.map Prod.fst) =
      some ts ∧ out = ts.flatMap (lookupRes matched) := by
  unfold orderMatched at h
  split at h
  next => cases h
  next ts hts =>
    cases h
    exact ⟨ts, hts, rfl⟩

/-- Every resource of the ordered output has its type among the sorted
type list. -/
theorem orderMatched_rtype_mem (matched : List (String × List ResourceDescriptor))
    (hwf : WellFormedMatched matched) (ts : List String) (r : ResourceDescriptor)
    (hr : r ∈ ts.flatMap (lookupRes matched)) : r.rtype ∈ ts := by
  obtain ⟨t, ht, hrt⟩ := List.mem_flatMap.mp hr
  rw [lookupRes_rtype matched hwf t r hrt]
  exact ht

/-- Across the ordered output, no resource of a dependency type ever
precedes a resource of the dependent type. -/
theorem orderMatched_pairwise (edges : List DependencyEdge)
    (matched : List (String × List ResourceDescriptor)) (e : DependencyEdge)
    (he : e ∈ edges) (hwf : WellFormedMatched matched)
    (out : List ResourceDescriptor)
    (hord : orderMatched edges matched = some out) :
    out.Pairwise fun x y => ¬(x.rtype = e.dependency ∧ y.rtype = e.dependent) := by
  obtain ⟨ts, hts, rfl⟩ := orderMatched_eq edges matched out hord
  rw [List.pairwise_flatMap]
  constructor
  · intro t ht
    refine List.pairwise_iff_getElem.mpr ?_
    intro i j hi hj hij hcontra
    have hx := lookupRes_rtype matched hwf t _
      (List.getElem_mem (l := lookupRes matched t) (n := i) hi)
    have hy := lookupRes_rtype matched hwf t _
      (List.getElem_mem (l := lookupRes matched t) (n := j) hj)
    have htB : t = e.dependency := hx.symm.trans hcontra.1
    have htA : t = e.dependent := hy.symm.trans hcontra.2
    have hself : e.dependent = e.dependency := htA.symm.trans htB
    exact topoSort_no_self edges e he hself _ _ _ hts (htB ▸ ht)
  · refine (topoSort_pairwise edges e he _ _ _ hts).imp ?_
    intro a b hab x hx y hy hxy
    exact hab ⟨(lookupRes_rtype matched hwf a x hx).symm.trans hxy.1,
      (lookupRes_rtype matched hwf b y hy).symm.trans hxy.2⟩

/-- C2: for a matched set containing resources of types A and B with a
registered edge "A depends on B", every resource of type A precedes
every resource of type B in the sequence produced by the Dependency
Orderer and consumed by the Executor. -/
theorem dependency_order_respected (edges : List DependencyEdge)
    (matched : List (String × List ResourceDescriptor)) (e : DependencyEdge)
    (out : List ResourceDescriptor) (i j : Nat)
    (he : e ∈ edges) (hwf : WellFormedMatched matched)
    (hord : orderMatched edges matched = some out)
    (hi : i < out.length) (hj : j < out.length)
    (hA : out[i].rtype = e.dependent) (hB : out[j].rtype = e.dependency) :
    i < j := by
  have hp := orderMatched_pairwise edges matched e he hwf out hord
  rcases Nat.lt_trichotomy i j with hlt | heq | hgt
  · exact hlt
  · exfalso
    subst heq
    have hself : e.dependent = e.dependency := hA.symm.trans hB
    obtain ⟨ts, hts, houts⟩ := orderMatched_eq edges matched out hord
    have hmemout : out[i] ∈ out := List.getElem_mem hi
    have hin : e.dependency ∈ ts := by
      rw [← hB]
      refine orderMatched_rtype_mem matched hwf ts out[i] ?_
      rw [← houts]
      exact hmemout
    exact topoSort_no_self edges e he hself _ _ _ hts hin
  · exact absurd ⟨hB, hA⟩ (List.pairwise_iff_getElem.mp hp j i hj hi hgt)

/-- Witness for C2: a subnet and a vpc with the edge "subnet depends on
vpc"; the orderer emits the subnet first. -/
theorem dependency_order_respected_witness :
    orderMatched [⟨"subnet", "vpc"⟩]
        [("vpc", [⟨"vpc", "v-1", "main", [], some 10⟩]),
         ("subnet", [⟨"subnet", "s-1", "a", [], some 11⟩])] =
      some [⟨"subnet", "s-1", "a", [], some 11⟩,
            ⟨"vpc", "v-1", "main", [], some 10⟩] ∧
    (0 : Nat) < 1 :=
  ⟨by decide,
    dependency_order_respected [⟨"subnet", "vpc"⟩]
      [("vpc", [⟨"vpc", "v-1", "main", [], some 10⟩]),
       ("subnet", [⟨"subnet", "s-1", "a", [], some 11⟩])]
      ⟨"subnet", "vpc"⟩
      [⟨"subnet", "s-1", "a", [], some 11⟩, ⟨"vpc", "v-1", "main", [], some 10⟩]
      0 1 (by decide) (by decide) (by decide) (by decide) (by decide) rfl rfl⟩

/-! ## Theorems: FilterSpec Loader -/

/-- A successful predicate-body parse certifies every entry. -/
theorem parsePreds_ok (entries : List (String × RawValue)) (ps : List Predicate)
    (h : parsePreds entries = Except.ok ps) :
    ∀ ev ∈ entries, ∃ p, parsePredicateEntry ev.1 ev.2 = Except.ok p := by
  induction entries generalizing ps with
  | nil =>
    intro ev hev
    cases hev
  | cons ev0 rest ih =>
    obtain ⟨n, v⟩ := ev0
    intro ev hev
    simp only [parsePreds] at h
    split at h
    next e heq => cases h
    next p heq =>
      split at h
      next e heq2 => cases h
      next ps2 heq2 =>
        rcases List.mem_cons.mp hev with rfl | hev2
        · exact ⟨p, heq⟩
        · exact ih ps2 heq2 ev hev2

/-- A successful document parse certifies every top-level entry: its key
is a known resource type and its body parses. -/
theorem parseFilters_ok (kvs : List (String × RawValue)) (spec : FilterSpec)
    (h : parseFilters kvs = Except.ok spec) :
    ∀ kv ∈ kvs, kv.1 ∈ knownTypes ∧
      ∃ tf, parseTypeFilter kv.1 kv.2 = Except.ok tf := by
  induction kvs generalizing spec with
  | nil =>
    intro kv hkv
    cases hkv
  | cons kv0 rest ih =>
    obtain ⟨k, v⟩ := kv0
    intro kv hkv
    simp only [parseFilters] at h
    split at h
    next e heq => cases h
    next tf heq =>
      split at h
      next e heq2 => cases h
      next tfs heq2 =>
        rcases List.mem_cons.mp hkv with rfl | hkv2
        · refine ⟨?_, tf, heq⟩
          by_contra hk
          simp only [parseTypeFilter, if_neg hk] at heq
          exact Except.noConfusion heq
        · exact ih tfs heq2 kv hkv2

/-- C7: `load` fails with a `ConfigError` on an unparseable document, a
document that is not a top-level mapping, a document referencing an
unknown resource-type identifier as a top-level key (unknown keys are
rejected, never silently ignored), and a document containing a
predicate of invalid shape. -/
theorem loader_rejects_invalid_documents :
    load none = Except.error ConfigError.unparseable ∧
    (∀ s, load (some (RawValue.str s)) = Except.error ConfigError.notAMap) ∧
    (∀ vs, load (some (RawValue.list vs)) = Except.error ConfigError.notAMap) ∧
    (∀ kvs kv, kv ∈ kvs → kv.1 ∉ knownTypes →
      ∃ err, load (some (RawValue.map kvs)) = Except.error err) ∧
    (∀ kvs k entries n pv, (k, RawValue.map entries) ∈ kvs → (n, pv) ∈ entries →
      (∀ p, parsePredicateEntry n pv ≠ Except.ok p) →
      ∃ err, load (some (RawValue.map kvs)) = Except.error err) := by
  refine ⟨rfl, fun s => rfl, fun vs => rfl, ?_, ?_⟩
  · intro kvs kv hkv hunknown
    cases hres : load (some (RawValue.map kvs)) with
    | error err => exact ⟨err, rfl⟩
    | ok spec =>
      exact absurd (parseFilters_ok kvs spec hres kv hkv).1 hunknown
  · intro kvs k entries n pv hkv hent hbadp
    cases hres : load (some (RawValue.map kvs)) with
    | error err => exact ⟨err, rfl⟩
    | ok spec =>
      exfalso
      obtain ⟨hknown, tf, htf⟩ :=
        parseFilters_ok kvs spec hres (k, RawValue.map entries) hkv
      simp only [parseTypeFilter, if_pos hknown] at htf
      split at htf
      next e heq => cases htf
      next ps heq =>
        obtain ⟨p, hp⟩ := parsePreds_ok entries ps heq (n, pv) hent
        exact hbadp p hp

/-- Witness for C7: a document with an unknown top-level key is
rejected. -/
theorem loader_rejects_invalid_documents_witness :
    ∃ err, load (some (RawValue.map [("frobnicator", RawValue.map [])])) =
      Except.error err :=
  loader_rejects_invalid_documents.2.2.2.1
    [("frobnicator", RawValue.map [])] ("frobnicator", RawValue.map [])
    (List.mem_singleton.mpr rfl) (by decide)

end Awsweeper
